import Mathlib

/-!
Verification development for the forex-fetcher pipeline (gha_run.py).

The embedding translates the pipeline of gha_run.py:
- a raw provider record and its parsing into a bar (fetch_bars),
- metric enrichment (add_metrics),
- the idempotent upsert into the forex_bars table (upsert_rows, with the
  ON CONFLICT (symbol, "datetime") DO UPDATE clause and the UNIQUE
  constraint of the DDL modelled as an association-list store keyed by
  (symbol, datetime)),
- the orchestration in main, with the environment (provider response,
  SKIP_DB flag, DB secrets, DB availability) passed explicitly.

Numeric fields are 64-bit floats in the source. Two models are used. For
the structural and inequality claims the fields are embedded as rational
numbers (exact arithmetic of the formulas). For the bit-exact output
values of the numeric example claim, the arithmetic of add_metrics is
additionally modelled as IEEE 754 binary64: values are canonical dyadic
mantissa-exponent pairs and every operation rounds to nearest, ties to
even, at 53-bit precision, which is what the Python floats of the source
compute. Timestamps are minute-resolution UTC instants; they are embedded
as natural numbers (comparison order is all that matters).
-/

namespace ForexFetcher

/-- Raw provider record, one element of the values array of the JSON body.
The source parses the datetime string with strptime and the price strings
with float; those library calls are modelled by Option-valued fields:
datetime is some t exactly when the string parses as a UTC instant t, and
each price field is some v exactly when the field is present and parses
as the number v (none covers both a missing field and an unparsable one). -/
structure RawRecord where
  datetime : Option Nat
  open_ : Option ℚ
  high : Option ℚ
  low : Option ℚ
  close : Option ℚ
deriving Repr, DecidableEq

/-- Bar as built by fetch_bars: symbol, parsed UTC timestamp, and the four
price fields. -/
structure Bar where
  symbol : String
  datetime : Nat
  open_ : ℚ
  high : ℚ
  low : ℚ
  close : ℚ
deriving Repr, DecidableEq

/-- Enriched bar: the row shape handed to upsert_rows, a bar plus the four
derived columns added by add_metrics. -/
structure EnrichedRow where
  symbol : String
  datetime : Nat
  open_ : ℚ
  high : ℚ
  low : ℚ
  close : ℚ
  pip_hl : ℚ
  pip_oc : ℚ
  confidence_score : ℚ
  confidence_tag : String
deriving Repr, DecidableEq

/-- Enrichment, translated from add_metrics of gha_run.py:
pip_hl = (high - low) * 10000.0, pip_oc = (close - open_) * 10000.0,
confidence_score = abs(pip_oc) / pip_hl if pip_hl != 0 else 0.0,
confidence_tag = "high" if confidence_score > 0.7 else "low";
the output row copies the bar and adds the four derived fields. -/
def add_metrics (bar : Bar) : EnrichedRow :=
  let pip_hl : ℚ := (bar.high - bar.low) * 10000
  let pip_oc : ℚ := (bar.close - bar.open_) * 10000
  let confidence_score : ℚ := if pip_hl ≠ 0 then |pip_oc| / pip_hl else 0
  let confidence_tag : String := if confidence_score > 0.7 then "high" else "low"
  { symbol := bar.symbol
    datetime := bar.datetime
    open_ := bar.open_
    high := bar.high
    low := bar.low
    close := bar.close
    pip_hl := pip_hl
    pip_oc := pip_oc
    confidence_score := confidence_score
    confidence_tag := confidence_tag }

/-- The first example bar of the spec. -/
def exampleBar1 : Bar :=
  { symbol := "EUR/USD", datetime := 0
    open_ := 1.1000, high := 1.1010, low := 1.0990, close := 1.1005 }

/-- The second example bar of the spec. -/
def exampleBar2 : Bar :=
  { symbol := "EUR/USD", datetime := 0
    open_ := 1.1000, high := 1.1010, low := 1.1000, close := 1.1009 }

/-- A bar with non-negative prices whose low exceeds its high. -/
def invertedBar : Bar :=
  { symbol := "EUR/USD", datetime := 0
    open_ := 1, high := 1, low := 2, close := 2 }

/-- A bar whose high equals its low (zero range). -/
def flatBar : Bar :=
  { symbol := "EUR/USD", datetime := 0
    open_ := 1, high := 1, low := 1, close := 1 }

/-- Provider response as seen by fetch_bars after the HTTP call: either the
transport layer failed (raise_for_status), or the provider answered with a
structured error body (status = error, turned into a RuntimeError), or it
answered with a JSON body whose values array holds the raw records. A body
with a missing or null values key is the same as an empty array, matching
the expression data.get with the or-else default. -/
inductive FetchOutcome where
  | transportError : FetchOutcome
  | providerError (msg : String) : FetchOutcome
  | payload (values : List RawRecord) : FetchOutcome
deriving Repr, DecidableEq

/-- Failure kinds a run can end with, one per exception path of gha_run.py:
transport failure, provider-reported error, malformed record (strptime,
missing field, or float failing, all uncaught), missing DB secrets
(sys.exit(1)), and a psycopg2 failure in ensure_table or upsert_rows. -/
inductive RunError where
  | transportError : RunError
  | providerError (msg : String) : RunError
  | parseError : RunError
  | configError : RunError
  | storageError : RunError
deriving Repr, DecidableEq

/-- Parsing of one raw record into a bar, translated from the loop body of
fetch_bars: the datetime string must parse and every price field must be
present and parse, otherwise the record raises (modelled as none). -/
def parseRecord (symbol : String) (row : RawRecord) : Option Bar :=
  match row.datetime, row.open_, row.high, row.low, row.close with
  | some dt, some o, some h, some l, some c =>
    some { symbol := symbol, datetime := dt
           open_ := o, high := h, low := l, close := c }
  | _, _, _, _, _ => none

/-- Parsing of a whole record list, in order; the first failing record
aborts the whole batch, as an uncaught exception does in the Python loop. -/
def parseAll (symbol : String) : List RawRecord → Option (List Bar)
  | [] => some []
  | r :: rs =>
    match parseRecord symbol r, parseAll symbol rs with
    | some b, some bs => some (b :: bs)
    | _, _ => none

/-- Translated from fetch_bars of gha_run.py: transport errors and provider
error bodies abort; otherwise the values array is walked in reversed order
(oldest to newest) and each record is parsed into a bar; any record failing
to parse aborts the whole fetch. -/
def fetch_bars (symbol : String) (resp : FetchOutcome) :
    Except RunError (List Bar) :=
  match resp with
  | .transportError => .error .transportError
  | .providerError m => .error (.providerError m)
  | .payload values =>
    match parseAll symbol values.reverse with
    | some bars => .ok bars
    | none => .error .parseError

/-- Key of a stored row, the pair the UNIQUE (symbol, "datetime")
constraint of the DDL ranges over. -/
def rowKey (r : EnrichedRow) : String × Nat := (r.symbol, r.datetime)

/-- Keys of the rows of a store, in row order. -/
def keysOf (st : List EnrichedRow) : List (String × Nat) := st.map rowKey

/-- Store effect of one VALUES tuple under INSERT ... ON CONFLICT (symbol,
"datetime") DO UPDATE SET of upsert_rows: if a row with the same key
exists it is overwritten in place on every value column (the whole row is
replaced by the incoming one), otherwise the row is appended. -/
def upsertOne (st : List EnrichedRow) (r : EnrichedRow) : List EnrichedRow :=
  if rowKey r ∈ keysOf st then
    st.map (fun x => if rowKey x = rowKey r then r else x)
  else st ++ [r]

/-- Translated from upsert_rows of gha_run.py: an empty row list returns
immediately without touching the store; otherwise the single bulk INSERT
ON CONFLICT DO UPDATE applies every tuple to the store. The second
component is the Python return value: the function has no return
statement with a value on either path, so it is always None (none); it
never returns a row count. -/
def upsert_rows (st : List EnrichedRow) :
    List EnrichedRow → List EnrichedRow × Option Nat
  | [] => (st, none)
  | r :: rs => ((r :: rs).foldl upsertOne st, none)

/-- Last row of a batch carrying a given key, the tuple whose values win
under ON CONFLICT DO UPDATE when a key occurs several times. -/
def lastWithKey (k : String × Nat) : List EnrichedRow → Option EnrichedRow
  | [] => none
  | r :: rs =>
    match lastWithKey k rs with
    | some x => some x
    | none => if rowKey r = k then some r else none

/-- Store invariant enforced by the UNIQUE (symbol, "datetime") constraint
of the DDL: no two rows share a key. -/
def KeysNodup (st : List EnrichedRow) : Prop := (keysOf st).Nodup

/-- Pipeline step markers, the states of the run that were reached:
FETCHED (fetch_bars returned), ENRICHED (add_metrics mapped over the
bars), SCHEMA_READY (ensure_table committed), PERSISTED (upsert_rows
committed). -/
inductive Step where
  | fetched : Step
  | enriched : Step
  | schemaReady : Step
  | persisted : Step
deriving Repr, DecidableEq, BEq

/-- Environment of one run: the provider response, the SKIP_DB flag
(SKIP_DB equal to the string 1), whether the five DB secrets are all set,
and whether the two database operations succeed when attempted. -/
structure Env where
  symbol : String
  response : FetchOutcome
  skip_db : Bool
  dbSecretsPresent : Bool
  schemaOk : Bool
  upsertOk : Bool

/-- Outcome of one run: the pipeline steps completed in order, the result
(error kind, or on success the number of rows written to storage), and
the final stored state. -/
structure RunOutcome where
  trace : List Step
  result : Except RunError Nat
  store : List EnrichedRow

/-- Translated from main of gha_run.py, run against an initial store:
fetch_bars first (any error propagates with nothing else done); an empty
bar list returns successfully at once; add_metrics maps over the bars;
SKIP_DB returns successfully without touching the database; missing DB
secrets exit with a config failure; then ensure_table and upsert_rows run
in that order, each database failure aborting the run with the store
unchanged (the single transaction of each operation either commits whole
or leaves nothing behind). -/
def main (env : Env) (st0 : List EnrichedRow) : RunOutcome :=
  match fetch_bars env.symbol env.response with
  | .error e => { trace := [], result := .error e, store := st0 }
  | .ok bars =>
    if bars.isEmpty then
      { trace := [.fetched], result := .ok 0, store := st0 }
    else
      let rows := bars.map add_metrics
      if env.skip_db then
        { trace := [.fetched, .enriched], result := .ok 0, store := st0 }
      else if env.dbSecretsPresent = false then
        { trace := [.fetched, .enriched]
          result := .error .configError, store := st0 }
      else if env.schemaOk = false then
        { trace := [.fetched, .enriched]
          result := .error .storageError, store := st0 }
      else if env.upsertOk = false then
        { trace := [.fetched, .enriched, .schemaReady]
          result := .error .storageError, store := st0 }
      else
        { trace := [.fetched, .enriched, .schemaReady, .persisted]
          result := .ok rows.length
          store := (upsert_rows st0 rows).1 }

/-- A well-formed raw record with timestamp 2 (the newer one). -/
def rawNewer : RawRecord :=
  { datetime := some 2, open_ := some 1, high := some 2
    low := some 1, close := some 2 }

/-- A well-formed raw record with timestamp 1 (the older one). -/
def rawOlder : RawRecord :=
  { datetime := some 1, open_ := some 1, high := some 2
    low := some 1, close := some 2 }

/-- A raw record whose open field is missing, as in the malformed-payload
example of the spec. -/
def rawMissingOpen : RawRecord :=
  { datetime := some 3, open_ := none, high := some 2
    low := some 1, close := some 2 }

/-- The bar denoted by rawNewer. -/
def barNewer : Bar :=
  { symbol := "EUR/USD", datetime := 2
    open_ := 1, high := 2, low := 1, close := 2 }

/-- The bar denoted by rawOlder. -/
def barOlder : Bar :=
  { symbol := "EUR/USD", datetime := 1
    open_ := 1, high := 2, low := 1, close := 2 }

/-- A sample enriched row used to instantiate the upsert theorems. -/
def sampleRow : EnrichedRow :=
  { symbol := "EUR/USD", datetime := 1
    open_ := 1, high := 2, low := 1, close := 2
    pip_hl := 10000, pip_oc := 10000
    confidence_score := 1, confidence_tag := "high" }

/-- An environment whose provider answers two well-formed records
newest-first and whose database is fully available. -/
def envGood : Env :=
  { symbol := "EUR/USD", response := .payload [rawNewer, rawOlder]
    skip_db := false, dbSecretsPresent := true
    schemaOk := true, upsertOk := true }

/-- An environment whose provider request fails at the transport layer. -/
def envTransportFail : Env :=
  { symbol := "EUR/USD", response := .transportError
    skip_db := false, dbSecretsPresent := true
    schemaOk := true, upsertOk := true }

/-- An environment whose provider answers an empty values array. -/
def envEmpty : Env :=
  { symbol := "EUR/USD", response := .payload []
    skip_db := false, dbSecretsPresent := true
    schemaOk := true, upsertOk := true }

/-- An environment with SKIP_DB set and an unavailable database, whose
provider answers one well-formed record. -/
def envSkip : Env :=
  { symbol := "EUR/USD", response := .payload [rawNewer]
    skip_db := true, dbSecretsPresent := false
    schemaOk := false, upsertOk := false }

/-- An environment whose provider payload contains a record missing its
open field. -/
def envBadPayload : Env :=
  { symbol := "EUR/USD", response := .payload [rawMissingOpen]
    skip_db := false, dbSecretsPresent := true
    schemaOk := true, upsertOk := true }

/-- Number of binary digits of a natural number, written with explicit
fuel so the recursion is structural and kernel-reducible; 200 bits of
fuel covers every quantity in this development. -/
def bitsF : Nat → Nat → Nat
  | 0, _ => 0
  | _ + 1, 0 => 0
  | f + 1, n + 1 => bitsF f ((n + 1) / 2) + 1

/-- Number of binary digits of a natural number. -/
def bits (n : Nat) : Nat := bitsF 200 n

/-- Round n / 2^s to the nearest integer, ties to even. The sticky flag
records that the true value being rounded exceeds n by a positive amount
smaller than one unit in the last discarded place (it arises from inexact
quotients), which turns an apparent tie into a round up. -/
def rshiftRHE (n s : Nat) (sticky : Bool) : Nat :=
  if s = 0 then n
  else
    let q := n / 2 ^ s
    let r := n % 2 ^ s
    let half := 2 ^ (s - 1)
    if half < r then q + 1
    else if r < half then q
    else if sticky then q + 1
    else if q % 2 = 0 then q else q + 1

/-- A binary64 value in canonical form: a mantissa-exponent pair (m, e)
denoting m times 2^e, with m = 0 (the value zero, canonically (0, 0)) or
2^52 <= abs m < 2^53. Canonical form makes structural equality coincide
with value equality, as IEEE equality does on finite doubles. The model
covers the normal range, which none of the quantities here leave. -/
abbrev FP : Type := Int × Int

/-- Round the real value (m + epsilon) * 2^e, where epsilon is positive
and tiny exactly when sticky is set and zero otherwise, to the nearest
binary64 in canonical form (round to nearest, ties to even). -/
def normRound (m : Int) (e : Int) (sticky : Bool) : FP :=
  if m = 0 then (0, 0)
  else
    let n := m.natAbs
    let b := bits n
    if b ≤ 53 then
      (m.sign * Int.ofNat (n * 2 ^ (53 - b)), e - Int.ofNat (53 - b))
    else
      let q := rshiftRHE n (b - 53) sticky
      if q = 2 ^ 53 then (m.sign * Int.ofNat (2 ^ 52), e + Int.ofNat (b - 53) + 1)
      else (m.sign * Int.ofNat q, e + Int.ofNat (b - 53))

/-- The binary64 nearest to the positive rational n / d: the double that
Python float produces when it parses the decimal literals of the source
and of the spec examples. The quotient is taken with 130 guard bits and a
sticky remainder bit before rounding. -/
def fpOfRat (n d : Nat) : FP :=
  normRound (Int.ofNat (n * 2 ^ 130 / d)) (-130) (n * 2 ^ 130 % d != 0)

/-- IEEE binary64 subtraction: the exact difference, then one rounding. -/
def fpSub (x y : FP) : FP :=
  normRound
    (x.1 * 2 ^ (x.2 - min x.2 y.2).toNat - y.1 * 2 ^ (y.2 - min x.2 y.2).toNat)
    (min x.2 y.2) false

/-- IEEE binary64 multiplication: the exact product, then one rounding. -/
def fpMul (x y : FP) : FP := normRound (x.1 * y.1) (x.2 + y.2) false

/-- IEEE binary64 division: the quotient of the mantissas with 55 guard
bits and a sticky remainder bit, then one rounding; this realizes
round-to-nearest-even of the exact quotient for canonical operands. -/
def fpDiv (x y : FP) : FP :=
  if x.1 = 0 then (0, 0)
  else
    normRound
      ((x.1.sign * y.1.sign) * Int.ofNat (x.1.natAbs * 2 ^ 55 / y.1.natAbs))
      (x.2 - y.2 - 55) (x.1.natAbs * 2 ^ 55 % y.1.natAbs != 0)

/-- IEEE binary64 absolute value, exact. -/
def fpAbs (x : FP) : FP := (Int.ofNat x.1.natAbs, x.2)

/-- Strict order on binary64 values, compared after aligning exponents. -/
abbrev fpLt (x y : FP) : Prop :=
  x.1 * 2 ^ (x.2 - min x.2 y.2).toNat < y.1 * 2 ^ (y.2 - min x.2 y.2).toNat

/-- The four derived fields of one bar under binary64 arithmetic. -/
structure FPMetrics where
  pip_hl : FP
  pip_oc : FP
  confidence_score : FP
  confidence_tag : String
deriving Repr, DecidableEq

/-- Binary64 semantics of add_metrics of gha_run.py: the same formulas as
add_metrics, with every arithmetic operation rounding to nearest-even
53-bit precision exactly as the Python floats of the source do:
pip_hl = (high - low) * 10000.0 is one subtraction and one multiplication,
each rounded; likewise pip_oc; the score is the rounded quotient of the
exact absolute value by pip_hl when pip_hl is nonzero, else 0.0; the
literals 10000.0 (exact) and 0.7 (rounded) denote their binary64 values. -/
def add_metrics_fp (open_ high low close : FP) : FPMetrics :=
  let t1 := fpSub high low
  let pip_hl := fpMul t1 (fpOfRat 10000 1)
  let t2 := fpSub close open_
  let pip_oc := fpMul t2 (fpOfRat 10000 1)
  let confidence_score :=
    if pip_hl ≠ ((0, 0) : FP) then fpDiv (fpAbs pip_oc) pip_hl
    else ((0, 0) : FP)
  let confidence_tag :=
    if fpLt (fpOfRat 7 10) confidence_score then "high" else "low"
  { pip_hl := pip_hl, pip_oc := pip_oc
    confidence_score := confidence_score, confidence_tag := confidence_tag }

end ForexFetcher

namespace ForexFetcher

/-- Unfolding lemma for the enrichment: the derived fields of add_metrics,
written without local lets. -/
lemma add_metrics_def (bar : Bar) :
    add_metrics bar =
      { symbol := bar.symbol
        datetime := bar.datetime
        open_ := bar.open_
        high := bar.high
        low := bar.low
        close := bar.close
        pip_hl := (bar.high - bar.low) * 10000
        pip_oc := (bar.close - bar.open_) * 10000
        confidence_score :=
          if (bar.high - bar.low) * 10000 ≠ 0
          then |(bar.close - bar.open_) * 10000| / ((bar.high - bar.low) * 10000)
          else 0
        confidence_tag :=
          if (if (bar.high - bar.low) * 10000 ≠ 0
              then |(bar.close - bar.open_) * 10000| / ((bar.high - bar.low) * 10000)
              else 0) > 0.7
          then "high" else "low" } := rfl

/-- Helper: the tag computed from a score is the string high exactly when
the score exceeds 0.7. -/
lemma tag_eq_high_iff (s : ℚ) :
    (if s > 0.7 then "high" else "low") = "high" ↔ s > 0.7 := by
  by_cases h : s > 0.7
  · simp [h]
  · simp [h]

/-- C1: for every bar, add_metrics computes pip_hl = (high - low) * 10000 and
pip_oc = (close - open) * 10000; confidence_score is abs pip_oc / pip_hl when
pip_hl is nonzero and exactly 0 when pip_hl = 0 (equivalently high = low);
and confidence_tag is high exactly when confidence_score > 0.7, otherwise
low, so when high = low the tag is low. -/
theorem add_metrics_formulas (bar : Bar) :
    (add_metrics bar).pip_hl = (bar.high - bar.low) * 10000 ∧
    (add_metrics bar).pip_oc = (bar.close - bar.open_) * 10000 ∧
    ((add_metrics bar).pip_hl ≠ 0 →
      (add_metrics bar).confidence_score =
        |(add_metrics bar).pip_oc| / (add_metrics bar).pip_hl) ∧
    ((add_metrics bar).pip_hl = 0 → (add_metrics bar).confidence_score = 0) ∧
    ((add_metrics bar).pip_hl = 0 ↔ bar.high = bar.low) ∧
    ((add_metrics bar).confidence_tag = "high" ↔
      (add_metrics bar).confidence_score > 0.7) ∧
    (bar.high = bar.low → (add_metrics bar).confidence_tag = "low") := by
  have hiff : ((bar.high - bar.low) * 10000 : ℚ) = 0 ↔ bar.high = bar.low := by
    constructor
    · intro h
      rcases mul_eq_zero.mp h with h1 | h2
      · exact sub_eq_zero.mp h1
      · norm_num at h2
    · intro h
      rw [h]; ring
  refine ⟨rfl, rfl, ?_, ?_, ?_, ?_, ?_⟩
  · intro h
    rw [add_metrics_def] at h ⊢
    simp only [if_pos h]
  · intro h
    have h0 : ((bar.high - bar.low) * 10000 : ℚ) = 0 := h
    rw [add_metrics_def]
    simp only [h0, ne_eq, not_true_eq_false, if_false]
  · rw [add_metrics_def]
    exact hiff
  · rw [add_metrics_def]
    exact tag_eq_high_iff _
  · intro h
    rw [add_metrics_def]
    simp only [hiff.mpr h, ne_eq, not_true_eq_false, if_false]
    norm_num

/-- Witness for C1: the hypotheses of add_metrics_formulas are discharged on
a concrete bar with high = low, where the score is 0 and the tag is low. -/
theorem add_metrics_formulas_witness :
    (add_metrics flatBar).pip_hl = 0 ∧
    (add_metrics flatBar).confidence_score = 0 ∧
    (add_metrics flatBar).confidence_tag = "low" :=
  ⟨((add_metrics_formulas flatBar).2.2.2.2.1).mpr rfl,
   (add_metrics_formulas flatBar).2.2.2.1
     (((add_metrics_formulas flatBar).2.2.2.2.1).mpr rfl),
   (add_metrics_formulas flatBar).2.2.2.2.2.2 rfl⟩

/-- Exact-arithmetic idealization of the two enrichment examples of the
spec: over exact rationals the formulas do attain the quoted decimal
values. The binary64 program attains them only approximately; see the
binary64 theorems below for what it actually computes. -/
theorem add_metrics_examples :
    (add_metrics exampleBar1).pip_hl = 20 ∧
    (add_metrics exampleBar1).pip_oc = 5 ∧
    (add_metrics exampleBar1).confidence_score = 0.25 ∧
    (add_metrics exampleBar1).confidence_tag = "low" ∧
    (add_metrics exampleBar2).pip_hl = 10 ∧
    (add_metrics exampleBar2).pip_oc = 9 ∧
    (add_metrics exampleBar2).confidence_score = 0.9 ∧
    (add_metrics exampleBar2).confidence_tag = "high" := by
  have h1 : ((exampleBar1.high - exampleBar1.low) * 10000 : ℚ) = 20 := by
    simp only [exampleBar1]; norm_num
  have h2 : ((exampleBar1.close - exampleBar1.open_) * 10000 : ℚ) = 5 := by
    simp only [exampleBar1]; norm_num
  have h3 : ((exampleBar2.high - exampleBar2.low) * 10000 : ℚ) = 10 := by
    simp only [exampleBar2]; norm_num
  have h4 : ((exampleBar2.close - exampleBar2.open_) * 10000 : ℚ) = 9 := by
    simp only [exampleBar2]; norm_num
  refine ⟨?_, ?_, ?_, ?_, ?_, ?_, ?_, ?_⟩ <;>
    rw [add_metrics_def] <;>
    simp only [h1, h2, h3, h4] <;>
    norm_num

set_option maxRecDepth 40000 in
/-- C9 counterexample: under the binary64 arithmetic the source actually
performs, the first example bar does not enrich to the exact decimal
values of the claim: its pip_hl is not the double 20.0 (it is the double
printed 20.000000000000018), its pip_oc is not 5.0, its score is not
0.25; and the second bar attains neither 10.0 nor 9.0. The input doubles
are the binary64 values of the decimal literals, as float parses them. -/
theorem add_metrics_fp_counterexample :
    (add_metrics_fp (fpOfRat 11000 10000) (fpOfRat 11010 10000)
        (fpOfRat 10990 10000) (fpOfRat 11005 10000)).pip_hl ≠
      fpOfRat 20 1 ∧
    (add_metrics_fp (fpOfRat 11000 10000) (fpOfRat 11010 10000)
        (fpOfRat 10990 10000) (fpOfRat 11005 10000)).pip_oc ≠
      fpOfRat 5 1 ∧
    (add_metrics_fp (fpOfRat 11000 10000) (fpOfRat 11010 10000)
        (fpOfRat 10990 10000) (fpOfRat 11005 10000)).confidence_score ≠
      fpOfRat 25 100 ∧
    (add_metrics_fp (fpOfRat 11000 10000) (fpOfRat 11010 10000)
        (fpOfRat 11000 10000) (fpOfRat 11009 10000)).pip_hl ≠
      fpOfRat 10 1 ∧
    (add_metrics_fp (fpOfRat 11000 10000) (fpOfRat 11010 10000)
        (fpOfRat 11000 10000) (fpOfRat 11009 10000)).pip_oc ≠
      fpOfRat 9 1 := by
  refine ⟨?_, ?_, ?_, ?_, ?_⟩ <;> decide

set_option maxRecDepth 40000 in
/-- C9 corrected: what the binary64 program computes on the two example
bars. The first enriches to pip_hl = 5629499534213125 * 2^-48 (printed
20.000000000000018), pip_oc = 5629499534212500 * 2^-50 (printed
4.999999999999449), confidence_score = 9007199254739992 * 2^-55 (printed
0.24999999999997224), confidence_tag low; the second to pip_hl =
5629499534212500 * 2^-49 (printed 9.999999999998899), pip_oc =
5066549580791250 * 2^-49 (printed 8.999999999999009), confidence_score
exactly the binary64 value of the literal 0.9, confidence_tag high. Of
the claimed exact equalities, only the two tags and the second score
survive in binary64. -/
theorem add_metrics_fp_examples :
    add_metrics_fp (fpOfRat 11000 10000) (fpOfRat 11010 10000)
        (fpOfRat 10990 10000) (fpOfRat 11005 10000) =
      { pip_hl := (5629499534213125, -48)
        pip_oc := (5629499534212500, -50)
        confidence_score := (9007199254739992, -55)
        confidence_tag := "low" } ∧
    add_metrics_fp (fpOfRat 11000 10000) (fpOfRat 11010 10000)
        (fpOfRat 11000 10000) (fpOfRat 11009 10000) =
      { pip_hl := (5629499534212500, -49)
        pip_oc := (5066549580791250, -49)
        confidence_score := fpOfRat 9 10
        confidence_tag := "high" } := by
  refine ⟨?_, ?_⟩ <;> decide

/-- C8 counterexample: the bar open = 1, high = 1, low = 2, close = 2 has
finite non-negative prices, yet its confidence score is -1, which is
negative. -/
theorem confidence_score_neg_counterexample :
    0 ≤ invertedBar.open_ ∧ 0 ≤ invertedBar.high ∧
    0 ≤ invertedBar.low ∧ 0 ≤ invertedBar.close ∧
    (add_metrics invertedBar).confidence_score = -1 ∧
    (add_metrics invertedBar).confidence_score < 0 := by
  have h1 : ((invertedBar.high - invertedBar.low) * 10000 : ℚ) = -10000 := by
    simp only [invertedBar]; norm_num
  have h2 : ((invertedBar.close - invertedBar.open_) * 10000 : ℚ) = 10000 := by
    simp only [invertedBar]; norm_num
  have hs : (add_metrics invertedBar).confidence_score = -1 := by
    rw [add_metrics_def]
    simp only [h1, h2]
    norm_num
  refine ⟨?_, ?_, ?_, ?_, hs, ?_⟩
  · simp only [invertedBar]; norm_num
  · simp only [invertedBar]; norm_num
  · simp only [invertedBar]; norm_num
  · simp only [invertedBar]; norm_num
  · rw [hs]; norm_num

/-- C8 amended: for every bar whose prices are non-negative and whose high
is at least its low, the confidence score is non-negative. -/
theorem confidence_score_nonneg (bar : Bar)
    (hopen : 0 ≤ bar.open_) (hhigh : 0 ≤ bar.high)
    (hlow : 0 ≤ bar.low) (hclose : 0 ≤ bar.close)
    (hhl : bar.low ≤ bar.high) :
    0 ≤ (add_metrics bar).confidence_score := by
  rw [add_metrics_def]
  by_cases h : ((bar.high - bar.low) * 10000 : ℚ) ≠ 0
  · simp only [if_pos h]
    apply div_nonneg (abs_nonneg _)
    have hd : (0 : ℚ) ≤ bar.high - bar.low := by linarith
    positivity
  · simp only [if_neg h]
    exact le_refl 0

/-- Witness for C8: the non-negativity theorem applied to the first example
bar of the spec, whose hypotheses hold by computation. -/
theorem confidence_score_nonneg_witness :
    0 ≤ (add_metrics exampleBar1).confidence_score :=
  confidence_score_nonneg exampleBar1 (by norm_num [exampleBar1])
    (by norm_num [exampleBar1]) (by norm_num [exampleBar1])
    (by norm_num [exampleBar1]) (by norm_num [exampleBar1])

/-- Unfolding lemma for the conflict branch of upsertOne. -/
lemma upsertOne_of_mem (st : List EnrichedRow) (r : EnrichedRow)
    (h : rowKey r ∈ keysOf st) :
    upsertOne st r = st.map (fun x => if rowKey x = rowKey r then r else x) := by
  simp only [upsertOne, if_pos h]

/-- Unfolding lemma for the insert branch of upsertOne. -/
lemma upsertOne_of_not_mem (st : List EnrichedRow) (r : EnrichedRow)
    (h : rowKey r ∉ keysOf st) : upsertOne st r = st ++ [r] := by
  simp only [upsertOne, if_neg h]

/-- Overwriting a row with one of the same key does not change its key. -/
lemma rowKey_overwrite (r x : EnrichedRow) :
    rowKey (if rowKey x = rowKey r then r else x) = rowKey x := by
  by_cases h : rowKey x = rowKey r
  · simp [h]
  · simp [h]

/-- Keys are unchanged by an upsert that hits an existing key. -/
lemma keysOf_upsertOne_of_mem (st : List EnrichedRow) (r : EnrichedRow)
    (h : rowKey r ∈ keysOf st) : keysOf (upsertOne st r) = keysOf st := by
  rw [upsertOne_of_mem st r h]
  simp only [keysOf, List.map_map]
  exact List.map_congr_left fun x _ => rowKey_overwrite r x

/-- Keys gain exactly the new key on an upsert that misses. -/
lemma keysOf_upsertOne_of_not_mem (st : List EnrichedRow) (r : EnrichedRow)
    (h : rowKey r ∉ keysOf st) :
    keysOf (upsertOne st r) = keysOf st ++ [rowKey r] := by
  rw [upsertOne_of_not_mem st r h]
  simp [keysOf]

/-- Existing keys survive a single upsert. -/
lemma mem_keysOf_upsertOne (st : List EnrichedRow) (r : EnrichedRow)
    {k : String × Nat} (h : k ∈ keysOf st) : k ∈ keysOf (upsertOne st r) := by
  by_cases hm : rowKey r ∈ keysOf st
  · rw [keysOf_upsertOne_of_mem st r hm]; exact h
  · rw [keysOf_upsertOne_of_not_mem st r hm]; exact List.mem_append_left _ h

/-- The upserted key is present after a single upsert. -/
lemma self_mem_keysOf_upsertOne (st : List EnrichedRow) (r : EnrichedRow) :
    rowKey r ∈ keysOf (upsertOne st r) := by
  by_cases hm : rowKey r ∈ keysOf st
  · rw [keysOf_upsertOne_of_mem st r hm]; exact hm
  · rw [keysOf_upsertOne_of_not_mem st r hm]
    exact List.mem_append_right _ (List.mem_singleton.mpr rfl)

/-- Existing keys survive a whole batch. -/
lemma mem_keysOf_foldl (rows : List EnrichedRow) (st : List EnrichedRow)
    {k : String × Nat} (h : k ∈ keysOf st) :
    k ∈ keysOf (rows.foldl upsertOne st) := by
  induction rows generalizing st with
  | nil => exact h
  | cons r rs ih => exact ih (upsertOne st r) (mem_keysOf_upsertOne st r h)

/-- Every key of a batch is present after the batch is applied. -/
lemma mem_keysOf_foldl_of_mem (rows : List EnrichedRow) (st : List EnrichedRow)
    {r : EnrichedRow} (h : r ∈ rows) :
    rowKey r ∈ keysOf (rows.foldl upsertOne st) := by
  induction rows generalizing st with
  | nil => cases h
  | cons r0 rs ih =>
    rcases List.mem_cons.mp h with h0 | h1
    · subst h0
      exact mem_keysOf_foldl rs (upsertOne st r) (self_mem_keysOf_upsertOne st r)
    · exact ih (upsertOne st r0) h1

/-- Unfolding lemma for lastWithKey on a cons. -/
lemma lastWithKey_cons (k : String × Nat) (r : EnrichedRow)
    (rs : List EnrichedRow) :
    lastWithKey k (r :: rs) =
      match lastWithKey k rs with
      | some x => some x
      | none => if rowKey r = k then some r else none := rfl

/-- Pointwise step of the batch-as-map characterization: overwriting with
the head tuple and then taking the last tuple of the tail is taking the
last tuple of the whole batch. -/
lemma lastWithKey_overwrite_step (r x : EnrichedRow) (rs : List EnrichedRow) :
    (lastWithKey (rowKey (if rowKey x = rowKey r then r else x)) rs).getD
        (if rowKey x = rowKey r then r else x)
      = (lastWithKey (rowKey x) (r :: rs)).getD x := by
  rw [rowKey_overwrite, lastWithKey_cons]
  by_cases hx : rowKey x = rowKey r
  · rw [if_pos hx]
    cases hts : lastWithKey (rowKey x) rs with
    | some y => simp [hts]
    | none => simp [hts, if_pos hx.symm]
  · rw [if_neg hx]
    cases hts : lastWithKey (rowKey x) rs with
    | some y => simp [hts]
    | none =>
      have hcond : ¬ (rowKey r = rowKey x) := fun hh => hx hh.symm
      simp [hts, hcond]

/-- When every key of the batch is already stored, applying the batch is a
pure in-place map sending each row to the last tuple carrying its key. -/
lemma foldl_eq_map_of_keys_mem (rows : List EnrichedRow)
    (st : List EnrichedRow) (h : ∀ r ∈ rows, rowKey r ∈ keysOf st) :
    rows.foldl upsertOne st =
      st.map (fun x => (lastWithKey (rowKey x) rows).getD x) := by
  induction rows generalizing st with
  | nil => simp [lastWithKey]
  | cons r rs ih =>
    have hr : rowKey r ∈ keysOf st := h r (List.mem_cons_self r rs)
    show rs.foldl upsertOne (upsertOne st r) = _
    have hkeys : keysOf (upsertOne st r) = keysOf st :=
      keysOf_upsertOne_of_mem st r hr
    rw [ih (upsertOne st r)
      (fun r' hr' => by rw [hkeys]; exact h r' (List.mem_cons_of_mem r hr'))]
    rw [upsertOne_of_mem st r hr, List.map_map]
    exact List.map_congr_left fun x _ => lastWithKey_overwrite_step r x rs

/-- Rows whose key never occurs in a batch come from the original store. -/
lemma mem_of_mem_foldl_of_not_key (rows : List EnrichedRow)
    (st : List EnrichedRow) {x : EnrichedRow}
    (hx : x ∈ rows.foldl upsertOne st) (hk : rowKey x ∉ keysOf rows) :
    x ∈ st := by
  induction rows generalizing st with
  | nil => exact hx
  | cons r rs ih =>
    rw [keysOf, List.map_cons, List.mem_cons] at hk
    push_neg at hk
    obtain ⟨hne, hnotin⟩ := hk
    have hx' : x ∈ upsertOne st r := ih (upsertOne st r) hx hnotin
    by_cases hm : rowKey r ∈ keysOf st
    · rw [upsertOne_of_mem st r hm] at hx'
      obtain ⟨y, hy, hxy⟩ := List.mem_map.mp hx'
      by_cases hyr : rowKey y = rowKey r
      · rw [if_pos hyr] at hxy
        exact absurd (show rowKey x = rowKey r by rw [← hxy]) hne
      · rw [if_neg hyr] at hxy
        exact hxy ▸ hy
    · rw [upsertOne_of_not_mem st r hm] at hx'
      rcases List.mem_append.mp hx' with h1 | h2
      · exact h1
      · rw [List.mem_singleton] at h2
        exact absurd (show rowKey x = rowKey r by rw [h2]) hne

/-- A key with no tuple in the batch is absent from the batch keys. -/
lemma not_mem_keysOf_of_lastWithKey_none {k : String × Nat}
    {rows : List EnrichedRow} (h : lastWithKey k rows = none) :
    k ∉ keysOf rows := by
  induction rows with
  | nil => simp [keysOf]
  | cons r rs ih =>
    rw [lastWithKey_cons] at h
    cases hts : lastWithKey k rs with
    | some y => simp [hts] at h
    | none =>
      simp only [hts] at h
      have hne : rowKey r ≠ k := by
        intro he
        rw [if_pos he] at h
        cases h
      have hrs : k ∉ keysOf rs := ih hts
      rw [keysOf, List.map_cons, List.mem_cons]
      rintro (he | hm)
      · exact hne he.symm
      · exact hrs hm

/-- Every stored row whose key occurs in the batch holds, after the batch
is applied, exactly the last tuple of the batch with that key: this is the
ON CONFLICT DO UPDATE overwrite of every value column. -/
lemma eq_lastWithKey_of_mem_foldl (rows : List EnrichedRow)
    (st : List EnrichedRow) {x : EnrichedRow} (r : EnrichedRow)
    (hx : x ∈ rows.foldl upsertOne st)
    (hl : lastWithKey (rowKey x) rows = some r) : x = r := by
  induction rows generalizing st r with
  | nil => simp [lastWithKey] at hl
  | cons r0 rs ih =>
    rw [lastWithKey_cons] at hl
    cases hts : lastWithKey (rowKey x) rs with
    | some y =>
      rw [hts] at hl
      have hyr : y = r := Option.some.inj hl
      exact hyr ▸ ih (upsertOne st r0) y hx hts
    | none =>
      simp only [hts] at hl
      by_cases hc : rowKey r0 = rowKey x
      · rw [if_pos hc] at hl
        have hr0 : r0 = r := Option.some.inj hl
        have hnot : rowKey x ∉ keysOf rs :=
          not_mem_keysOf_of_lastWithKey_none hts
        have hx' : x ∈ upsertOne st r0 :=
          mem_of_mem_foldl_of_not_key rs (upsertOne st r0) hx hnot
        rw [← hr0]
        by_cases hm : rowKey r0 ∈ keysOf st
        · rw [upsertOne_of_mem st r0 hm] at hx'
          obtain ⟨y, hy, hxy⟩ := List.mem_map.mp hx'
          by_cases hyr : rowKey y = rowKey r0
          · rw [if_pos hyr] at hxy
            exact hxy.symm
          · rw [if_neg hyr] at hxy
            exact absurd (show rowKey y = rowKey r0 by rw [hxy, ← hc]) hyr
        · rw [upsertOne_of_not_mem st r0 hm] at hx'
          rcases List.mem_append.mp hx' with h1 | h2
          · refine absurd ?_ hm
            rw [hc]
            exact List.mem_map_of_mem rowKey h1
          · exact List.mem_singleton.mp h2
      · rw [if_neg hc] at hl
        cases hl

/-- A single upsert preserves key uniqueness. -/
lemma keysNodup_upsertOne (st : List EnrichedRow) (r : EnrichedRow)
    (h : KeysNodup st) : KeysNodup (upsertOne st r) := by
  unfold KeysNodup at h ⊢
  by_cases hm : rowKey r ∈ keysOf st
  · rw [keysOf_upsertOne_of_mem st r hm]; exact h
  · rw [keysOf_upsertOne_of_not_mem st r hm, List.nodup_append]
    refine ⟨h, List.nodup_singleton _, ?_⟩
    intro a ha hb
    rw [List.mem_singleton] at hb
    exact hm (hb ▸ ha)

/-- A whole batch preserves key uniqueness. -/
lemma keysNodup_foldl (rows : List EnrichedRow) (st : List EnrichedRow)
    (h : KeysNodup st) : KeysNodup (rows.foldl upsertOne st) := by
  induction rows generalizing st with
  | nil => exact h
  | cons r rs ih => exact ih (upsertOne st r) (keysNodup_upsertOne st r h)

/-- Store component of upsert_rows: both branches fold the batch. -/
lemma upsert_rows_fst (st rows : List EnrichedRow) :
    (upsert_rows st rows).1 = rows.foldl upsertOne st := by
  cases rows <;> rfl

/-- C3: the upsert is idempotent on stored state, for every store and
every batch; each stored row whose key occurs in the batch ends up equal
(on every column) to the last batch tuple with that key; and the store
never acquires two rows with the same (symbol, datetime) key. -/
theorem upsert_rows_semantics :
    (∀ st rows,
      (upsert_rows (upsert_rows st rows).1 rows).1 = (upsert_rows st rows).1) ∧
    (∀ st rows x r, x ∈ (upsert_rows st rows).1 →
      lastWithKey (rowKey x) rows = some r → x = r) ∧
    (∀ st rows, KeysNodup st → KeysNodup (upsert_rows st rows).1) := by
  refine ⟨?_, ?_, ?_⟩
  · intro st rows
    rw [upsert_rows_fst, upsert_rows_fst]
    have hkeys : ∀ r ∈ rows, rowKey r ∈ keysOf (rows.foldl upsertOne st) :=
      fun r hr => mem_keysOf_foldl_of_mem rows st hr
    rw [foldl_eq_map_of_keys_mem rows _ hkeys]
    conv_rhs => rw [← List.map_id (rows.foldl upsertOne st)]
    refine List.map_congr_left fun x hx => ?_
    cases hlast : lastWithKey (rowKey x) rows with
    | none => simp [hlast]
    | some r =>
      simpa [hlast] using (eq_lastWithKey_of_mem_foldl rows st r hx hlast).symm
  · intro st rows x r hx hl
    rw [upsert_rows_fst] at hx
    exact eq_lastWithKey_of_mem_foldl rows st r hx hl
  · intro st rows h
    rw [upsert_rows_fst]
    exact keysNodup_foldl rows st h

/-- Witness for C3: the three parts of the upsert theorem instantiated on
the empty store and a one-row batch. -/
theorem upsert_rows_semantics_witness :
    (upsert_rows (upsert_rows [] [sampleRow]).1 [sampleRow]).1 =
      (upsert_rows [] [sampleRow]).1 ∧
    sampleRow = sampleRow ∧
    KeysNodup (upsert_rows [] [sampleRow]).1 :=
  ⟨upsert_rows_semantics.1 [] [sampleRow],
   upsert_rows_semantics.2.1 [] [sampleRow] sampleRow sampleRow
     (List.mem_singleton.mpr rfl) rfl,
   upsert_rows_semantics.2.2 [] [sampleRow] List.nodup_nil⟩

/-- C6 counterexample: upsert_rows returns None (no row count) on both an
empty and a non-empty input, so it does not return 0 for an empty input
nor the written count for a non-empty one. -/
theorem upsert_rows_no_count_counterexample :
    (upsert_rows [] []).2 = none ∧
    (upsert_rows [] [sampleRow]).2 = none ∧
    (upsert_rows [] []).2 ≠ some 0 ∧
    (upsert_rows [] [sampleRow]).2 ≠ some 1 := by
  refine ⟨rfl, rfl, ?_, ?_⟩ <;> simp [upsert_rows]

/-- C6 corrected: for an empty input sequence upsert_rows is a no-op that
leaves the store unchanged and raises no error, but its Python return
value is None on every input: it never returns a row count (main computes
the reported count itself from the row list). -/
theorem upsert_rows_empty_noop :
    (∀ st, upsert_rows st [] = (st, none)) ∧
    (∀ st rows, (upsert_rows st rows).2 = none) := by
  refine ⟨fun st => rfl, fun st rows => ?_⟩
  cases rows <;> rfl

/-- Record-list parsing distributes over append: the whole batch parses
exactly when both halves do. -/
lemma parseAll_append (symbol : String) (xs ys : List RawRecord) :
    parseAll symbol (xs ++ ys) =
      (parseAll symbol xs).bind
        (fun a => (parseAll symbol ys).map (fun b => a ++ b)) := by
  induction xs with
  | nil =>
    cases h : parseAll symbol ys <;> simp [parseAll, h]
  | cons r rs ih =>
    cases hr : parseRecord symbol r <;>
      cases ha : parseAll symbol rs <;>
      cases hb : parseAll symbol ys <;>
      simp [parseAll, ih, hr, ha, hb]

/-- Parsing a reversed record list yields the reversed bar list. -/
lemma parseAll_reverse (symbol : String) (xs : List RawRecord) :
    parseAll symbol xs.reverse = (parseAll symbol xs).map List.reverse := by
  induction xs with
  | nil => rfl
  | cons r rs ih =>
    rw [List.reverse_cons, parseAll_append, ih]
    cases hr : parseRecord symbol r <;>
      cases ha : parseAll symbol rs <;>
      simp [parseAll, hr, ha]

/-- One bad record poisons the whole batch: if any record of the list
fails to parse, the whole list fails to parse. -/
lemma parseAll_eq_none_of_mem (symbol : String) {values : List RawRecord}
    {r : RawRecord} (hr : r ∈ values)
    (hbad : parseRecord symbol r = none) :
    parseAll symbol values = none := by
  induction values with
  | nil => cases hr
  | cons r0 rs ih =>
    rcases List.mem_cons.mp hr with h0 | h1
    · subst h0
      cases parseAll symbol rs <;> simp [parseAll, hbad]
    · cases parseRecord symbol r0 <;> simp [parseAll, ih h1]

/-- C2: when the provider payload parses to the bar list ps ordered
newest-first (strictly descending timestamps), fetch_bars returns exactly
the reversed list: a sequence strictly ascending by timestamp that is a
permutation of (contains exactly) the parsed bars. -/
theorem fetch_bars_ordering (symbol : String) (values : List RawRecord)
    (ps : List Bar) (hparse : parseAll symbol values = some ps)
    (hdesc : (ps.map Bar.datetime).Pairwise (fun a b => b < a)) :
    fetch_bars symbol (.payload values) = .ok ps.reverse ∧
    (ps.reverse.map Bar.datetime).Pairwise (fun a b => a < b) ∧
    ps.reverse.Perm ps := by
  refine ⟨?_, ?_, List.reverse_perm ps⟩
  · simp only [fetch_bars, parseAll_reverse, hparse, Option.map_some']
  · rw [List.map_reverse, List.pairwise_reverse]
    exact hdesc

/-- Witness for C2: the ordering theorem applied to a two-record payload
in descending timestamp order. -/
theorem fetch_bars_ordering_witness :
    fetch_bars "EUR/USD" (.payload [rawNewer, rawOlder]) =
      .ok [barNewer, barOlder].reverse ∧
    ([barNewer, barOlder].reverse.map Bar.datetime).Pairwise
      (fun a b => a < b) ∧
    [barNewer, barOlder].reverse.Perm [barNewer, barOlder] :=
  fetch_bars_ordering "EUR/USD" [rawNewer, rawOlder] [barNewer, barOlder]
    rfl (by simp [barNewer, barOlder])

/-- C4: a payload containing a record with an unparsable timestamp or a
missing price field makes the whole fetch fail with the parse-failure
kind; main then returns that failure with no step completed and the
store untouched. -/
theorem fetch_parse_failure (env : Env) (st0 : List EnrichedRow)
    (values : List RawRecord) (r : RawRecord)
    (hv : env.response = .payload values) (hr : r ∈ values)
    (hbad : parseRecord env.symbol r = none) :
    fetch_bars env.symbol env.response = .error .parseError ∧
    (main env st0).result = .error .parseError ∧
    (main env st0).trace = [] ∧
    (main env st0).store = st0 := by
  have hnone : parseAll env.symbol values.reverse = none :=
    parseAll_eq_none_of_mem env.symbol (List.mem_reverse.mpr hr) hbad
  have hf : fetch_bars env.symbol env.response = .error .parseError := by
    rw [hv]
    simp only [fetch_bars, hnone]
  refine ⟨hf, ?_, ?_, ?_⟩ <;> simp [main, hf]

/-- Witness for C4: the parse-failure theorem applied to a payload whose
single record is missing its open field. -/
theorem fetch_parse_failure_witness :
    fetch_bars envBadPayload.symbol envBadPayload.response =
      .error .parseError ∧
    (main envBadPayload []).result = .error .parseError ∧
    (main envBadPayload []).trace = [] ∧
    (main envBadPayload []).store = [] :=
  fetch_parse_failure envBadPayload [] [rawMissingOpen] rawMissingOpen rfl
    (List.mem_singleton.mpr rfl) rfl

/-- C5 corrected: every run walks the linear order FETCHED, ENRICHED,
SCHEMA_READY, PERSISTED (the completed steps are always a prefix of that
sequence, so ensure_table runs after the fetch, not before it), and any
component error aborts the remaining steps, leaving the store untouched
with PERSISTED never reached. -/
theorem main_linear_order (env : Env) (st0 : List EnrichedRow) :
    (main env st0).trace <+:
      [Step.fetched, Step.enriched, Step.schemaReady, Step.persisted] ∧
    (∀ e, (main env st0).result = .error e →
      Step.persisted ∉ (main env st0).trace ∧ (main env st0).store = st0) := by
  cases hf : fetch_bars env.symbol env.response with
  | error e =>
    refine ⟨?_, ?_⟩ <;> simp [main, hf]
  | ok bars =>
    by_cases hb : bars.isEmpty = true
    · refine ⟨?_, ?_⟩ <;> simp [main, hf, hb]
    · by_cases hs : env.skip_db = true
      · refine ⟨?_, ?_⟩ <;> simp [main, hf, hb, hs]
      · by_cases hd : env.dbSecretsPresent = false
        · refine ⟨?_, ?_⟩ <;> simp [main, hf, hb, hs, hd]
        · by_cases hsc : env.schemaOk = false
          · refine ⟨?_, ?_⟩ <;> simp [main, hf, hb, hs, hd, hsc]
          · by_cases hu : env.upsertOk = false
            · refine ⟨?_, ?_⟩ <;> simp [main, hf, hb, hs, hd, hsc, hu]
            · refine ⟨?_, ?_⟩ <;> simp [main, hf, hb, hs, hd, hsc, hu]

/-- Witness for C5: the order theorem applied to a run whose provider
fails at the transport layer, discharging the error hypothesis. -/
theorem main_linear_order_witness :
    (main envTransportFail []).trace <+:
      [Step.fetched, Step.enriched, Step.schemaReady, Step.persisted] ∧
    Step.persisted ∉ (main envTransportFail []).trace ∧
    (main envTransportFail []).store = [] :=
  ⟨(main_linear_order envTransportFail []).1,
   (main_linear_order envTransportFail []).2 .transportError rfl⟩

/-- C5 counterexample: on a fully healthy run the first completed step is
the fetch and the schema step comes only third, so ensure_table does not
run before the fetch is issued as the claimed state machine requires. -/
theorem main_schema_after_fetch_counterexample :
    (main envGood []).trace =
      [Step.fetched, Step.enriched, Step.schemaReady, Step.persisted] ∧
    (main envGood []).trace.indexOf Step.fetched = 0 ∧
    (main envGood []).trace.indexOf Step.schemaReady = 2 ∧
    ¬ (main envGood []).trace.indexOf Step.schemaReady <
        (main envGood []).trace.indexOf Step.fetched := by
  have ht : (main envGood []).trace =
      [Step.fetched, Step.enriched, Step.schemaReady, Step.persisted] := rfl
  refine ⟨rfl, rfl, rfl, ?_⟩
  rw [ht]
  decide

/-- C7: a run whose provider answers an empty values array completes
successfully with zero rows written, no storage interaction and the
store untouched. -/
theorem main_empty_fetch (env : Env) (st0 : List EnrichedRow)
    (h : env.response = .payload []) :
    (main env st0).result = .ok 0 ∧
    (main env st0).store = st0 ∧
    (main env st0).trace = [Step.fetched] := by
  have hf : fetch_bars env.symbol env.response = .ok [] := by
    rw [h]; rfl
  refine ⟨?_, ?_, ?_⟩ <;> simp [main, hf]

/-- Witness for C7: the empty-fetch theorem applied to the concrete
environment whose provider answers an empty values array. -/
theorem main_empty_fetch_witness :
    (main envEmpty []).result = .ok 0 ∧
    (main envEmpty []).store = [] ∧
    (main envEmpty []).trace = [Step.fetched] :=
  main_empty_fetch envEmpty [] rfl

/-- C10: with SKIP_DB set, every run whose fetch succeeds completes
successfully without any storage operation: neither the schema step nor
the upsert step is reached and the store is unchanged. -/
theorem main_skip_db (env : Env) (st0 : List EnrichedRow)
    (hskip : env.skip_db = true)
    (hfetch : ∃ bars, fetch_bars env.symbol env.response = .ok bars) :
    (∃ n, (main env st0).result = .ok n) ∧
    (main env st0).store = st0 ∧
    Step.schemaReady ∉ (main env st0).trace ∧
    Step.persisted ∉ (main env st0).trace := by
  obtain ⟨bars, hf⟩ := hfetch
  by_cases hb : bars.isEmpty = true
  · exact ⟨⟨0, by simp [main, hf, hb]⟩, by simp [main, hf, hb],
      by simp [main, hf, hb], by simp [main, hf, hb]⟩
  · exact ⟨⟨0, by simp [main, hf, hb, hskip]⟩, by simp [main, hf, hb, hskip],
      by simp [main, hf, hb, hskip], by simp [main, hf, hb, hskip]⟩

/-- Witness for C10: the SKIP_DB theorem applied to an environment with
SKIP_DB set, an unavailable database and a one-bar fetch. -/
theorem main_skip_db_witness :
    (∃ n, (main envSkip []).result = .ok n) ∧
    (main envSkip []).store = [] ∧
    Step.schemaReady ∉ (main envSkip []).trace ∧
    Step.persisted ∉ (main envSkip []).trace :=
  main_skip_db envSkip [] rfl ⟨[barNewer], rfl⟩

end ForexFetcher
